import Mathlib

/-!
Verification of the video-converter pipeline against its specification.

The Python sources are shallowly embedded:
* `src/video_optimizer/config.py`   → `Config`, `defaultConfig`
* `src/video_optimizer/utils.py`    → `isVideoFile`, `pathSuffix`, `strLower`
* `src/video_optimizer/file_manager.py` → `FS` operations, `walkCollect`,
  `collectVideoFiles`, `checkSkip`
* `src/video_optimizer/video_processor.py` → namespace `VP`
* `src/convert.py`                  → namespace `Convert`
* `src/main.py`                     → namespace `Main` (per-file processing and
  the queue-based discovery loop)

The filesystem is modelled as a partial map from path strings to byte sizes;
external-process behaviour (ffmpeg) is an oracle parameter `Env`.  Python
standard-library path functions (`os.path.join`, `os.path.splitext`,
`pathlib.suffix`, `str.startswith`, `str.replace`, the `in` operator) are
re-implemented on `List Char` following their CPython semantics.
-/

/-! ## Python string primitives -/

/-- Models Python's `str.startswith`: `listIsPfx p l` holds when on the underlying
character lists: `p` is a literal prefix of `l`. -/
def listIsPfx : List Char → List Char → Bool
  | [], _ => true
  | _ :: _, [] => false
  | a :: as, b :: bs => a == b && listIsPfx as bs

/-- Python's `s.startswith(pre)`. -/
def pyStartswith (s pre : String) : Bool :=
  listIsPfx pre.data s.data

/-- Substring test: `hasSubstr needle hay` is true when `needle` occurs contiguously inside `hay`. -/
def hasSubstr (needle : List Char) : List Char → Bool
  | [] => listIsPfx needle []
  | c :: t => listIsPfx needle (c :: t) || hasSubstr needle t

/-- Python's `needle in hay` on strings. -/
def pyIn (needle hay : String) : Bool :=
  hasSubstr needle.data hay.data

/-- Python's `str.lower` (restricted to the ASCII case mapping, which is all
the configured extensions need). -/
def strLower (s : String) : String :=
  String.mk (s.data.map Char.toLower)

/-- One step of Python's `str.replace`: fuelled structural recursion over the
haystack (fuel is the haystack length, enough since every step consumes at
least one character).  Empty patterns are treated as non-matching; the
program only ever calls this with the nonempty pattern `".mp4"`. -/
def pyReplaceAux (pat rep : List Char) : Nat → List Char → List Char
  | _, [] => []
  | 0, hay => hay
  | Nat.succ fuel, c :: t =>
    if !pat.isEmpty && listIsPfx pat (c :: t) then
      rep ++ pyReplaceAux pat rep fuel ((c :: t).drop pat.length)
    else
      c :: pyReplaceAux pat rep fuel t

/-- Python's `s.replace(pat, rep)`. -/
def pyReplace (s pat rep : String) : String :=
  String.mk (pyReplaceAux pat.data rep.data s.data.length s.data)

/-! ## Python path primitives -/

/-- Index of the last occurrence of `c`, accumulator-passing. -/
def rfindIdxAux (c : Char) : List Char → Nat → Option Nat → Option Nat
  | [], _, acc => acc
  | x :: t, i, acc => rfindIdxAux c t (i + 1) (if x = c then some i else acc)

/-- Python's `str.rfind` (as an `Option` instead of `-1`). -/
def rfindIdx (cs : List Char) (c : Char) : Option Nat :=
  rfindIdxAux c cs 0 none

/-- Python's `os.path.join(a, b)` for POSIX paths, two arguments. -/
def pjoin (a b : String) : String :=
  if b.data.head? = some '/' then b
  else if a = "" then b
  else if (match a.data.getLast? with | some x => x == '/' | none => false) then a ++ b
  else a ++ "/" ++ b

/-- The base of `os.path.splitext(p)`: split at the last dot that comes after
the last separator, unless the basename consists only of leading dots up to
that point (CPython `posixpath.splitext`). -/
def splitextBase (p : String) : String :=
  let cs := p.data
  match rfindIdx cs '.' with
  | none => p
  | some dot =>
    let nameStart : Nat :=
      match rfindIdx cs '/' with
      | none => 0
      | some s => s + 1
    if nameStart ≤ dot then
      if ((cs.drop nameStart).take (dot - nameStart)).any (fun ch => !(ch == '.')) then
        String.mk (cs.take dot)
      else p
    else p

/-- The final path component (after the last `/`). -/
def lastComponent (p : String) : String :=
  match rfindIdx p.data '/' with
  | none => p
  | some i => String.mk (p.data.drop (i + 1))

/-- Python's `pathlib.PurePath.suffix`: the extension of the final component, empty
unless the last dot is an interior character of the name. -/
def pathSuffix (p : String) : String :=
  let name := lastComponent p
  let cs := name.data
  match rfindIdx cs '.' with
  | none => ""
  | some i => if 0 < i ∧ i + 1 < cs.length then String.mk (cs.drop i) else ""

/-! ## Configuration (`src/video_optimizer/config.py`) -/

structure Config where
  VIDEO_EXTENSIONS : List String
  SOURCE_ROOT : String
  OUTPUT_ROOT : String
  ERRORED_ROOT : String
  IN_PROGRESS_ROOT : String
  DONE_ROOT : String
  OPTIMIZED_BAD_ROOT : String
  OPTIMIZED_ORIGINAL_ROOT : String
  REVERSE_ORDER : Bool
deriving DecidableEq

/-- The defaults of `Configuration` in `config.py` (same constants appear at
the top of `convert.py`). -/
def defaultConfig : Config :=
  ⟨[".mp4", ".avi", ".mkv", ".mov", ".flv", ".wmv", ".mpeg", ".mpg", ".m4v"],
   "./to-convert", "optimized", "errored", "in-progress", "done",
   "optimized-bad", "optimized-original", false⟩

/-- From `Utils.is_video_file`: the lower-cased `pathlib` suffix is in the
configured extension set. -/
def isVideoFile (cfg : Config) (p : String) : Bool :=
  cfg.VIDEO_EXTENSIONS.contains (strLower (pathSuffix p))

/-- The `skip_dirs` set used by `FileManager.collect_video_files` and
`check_skip_directory` (same six roots in `convert.py`). -/
def skipDirs (cfg : Config) : List String :=
  [cfg.OUTPUT_ROOT, cfg.ERRORED_ROOT, cfg.IN_PROGRESS_ROOT, cfg.DONE_ROOT,
   cfg.OPTIMIZED_BAD_ROOT, cfg.OPTIMIZED_ORIGINAL_ROOT]

/-- From `FileManager.check_skip_directory`: the relative path starts with
`skip_dir + os.sep` for one of the six outcome roots. -/
def checkSkip (cfg : Config) (rel : String) : Bool :=
  (skipDirs cfg).any (fun d => pyStartswith rel (d ++ "/"))

/-! ## Progress counter (`VideoProcessor.process_video`, lines 196-200)

Each line of ffmpeg output matched by `frame=\s*(\d+)` yields a frame number
`current_frame`, and the code runs
`file_pbar.update(current_frame - file_pbar.n)`; tqdm's `update(k)` performs
`self.n += k` (also for negative `k`). -/

/-- tqdm's `pbar.update(k)`: `n += k`. -/
def pbarApplyUpdate (n k : Int) : Int := n + k

/-- The counter update the code performs for one matched frame value. -/
def ffmpegFrameStep (n frame : Int) : Int :=
  pbarApplyUpdate n (frame - n)

/-- The observed sequence of `file_pbar.n` values over a run of matched frame
values, starting from counter value `n` (tqdm starts at 0). -/
def ffmpegProgressTrace (n : Int) : List Int → List Int
  | [] => []
  | f :: fs => ffmpegFrameStep n f :: ffmpegProgressTrace (ffmpegFrameStep n f) fs

/-- `decreasesSomewhere l = true` when some adjacent pair of the observed
progress sequence strictly decreases. -/
def decreasesSomewhere : List Int → Bool
  | a :: b :: t => decide (b < a) || decreasesSomewhere (b :: t)
  | _ => false

/-- C4, counterexample: the out-of-order token sequence `5, 3, 8` yields the
observed progress sequence `5, 3, 8` — not the claimed `5, 5, 8` — and the
observed sequence does decrease. -/
theorem progress_claim_counterexample :
    ffmpegProgressTrace 0 [5, 3, 8] = [5, 3, 8]
      ∧ ffmpegProgressTrace 0 [5, 3, 8] ≠ [5, 5, 8]
      ∧ decreasesSomewhere (ffmpegProgressTrace 0 [5, 3, 8]) = true := by
  refine ⟨by decide, by decide, by decide⟩

/-- C4, amended: the progress counter is set to each matched frame value
exactly (`update(current_frame - n)` makes `n = current_frame`), so
out-of-order matches make the counter decrease; the observed sequence equals
the matched token sequence, in particular `5, 3, 8` yields `5, 3, 8`. -/
theorem progress_tracks_matched_value (n : Int) (frames : List Int) :
    ffmpegProgressTrace n frames = frames := by
  induction frames generalizing n with
  | nil => rfl
  | cons f fs ih =>
    simp [ffmpegProgressTrace, ffmpegFrameStep, pbarApplyUpdate, ih]

/-! ## Filesystem model

A filesystem is a partial map from path strings to file byte sizes.  The
`os` / `shutil` operations the program uses either return an updated map or
raise; raising is modelled with `Except`.  `shutil.move` and `os.rename`
remove the source and (over)write the destination; both raise
`FileNotFoundError` when the source is absent, as do `os.remove` and
`os.path.getsize` on absent paths. -/

def FS : Type := String → Option Nat

def FS.set (fs : FS) (p : String) (n : Nat) : FS :=
  fun q => if q = p then some n else fs q

def FS.del (fs : FS) (p : String) : FS :=
  fun q => if q = p then none else fs q

/-- The exceptions the embedded pipeline can raise. -/
inductive Err where
  | moveFailed (src dst : String)
  | removeFailed (p : String)
  | renameFailed (src dst : String)
  | getsizeFailed (p : String)
  | toolCrash
deriving DecidableEq

/-- Python's `shutil.move` (as wrapped by `FileManager._move_file`, which re-raises
failures after logging; `os.makedirs` on the destination parents is a no-op
in this model). -/
def shutilMove (fs : FS) (src dst : String) : Except Err FS :=
  match fs src with
  | none => Except.error (Err.moveFailed src dst)
  | some n => Except.ok ((fs.del src).set dst n)

/-- Python's `os.rename`. -/
def osRename (fs : FS) (src dst : String) : Except Err FS :=
  match fs src with
  | none => Except.error (Err.renameFailed src dst)
  | some n => Except.ok ((fs.del src).set dst n)

/-- Python's `os.remove`. -/
def osRemove (fs : FS) (p : String) : Except Err FS :=
  match fs p with
  | none => Except.error (Err.removeFailed p)
  | some _ => Except.ok (fs.del p)

/-- Python's `os.path.getsize`. -/
def osGetsize (fs : FS) (p : String) : Except Err Nat :=
  match fs p with
  | none => Except.error (Err.getsizeFailed p)
  | some n => Except.ok n

/-- What one ffmpeg invocation does: exit with a code after having written
the staging file (or not), or raise during launch/streaming (`Popen`
`FileNotFoundError`, I/O errors, ...), possibly leaving a partial staging
file behind. -/
inductive FfmpegRun where
  | exits (code : Int) (written : Option Nat)
  | crashes (written : Option Nat)
deriving DecidableEq

/-- The external environment of one `process_video` call: the behaviour of
`os.path.relpath(·, SOURCE_ROOT)` (`none` models `ValueError`) and of the
ffmpeg invocation. -/
structure Env where
  relpath : String → Option String
  ffmpeg : FfmpegRun

/-- The staging file ffmpeg leaves in the `in-progress` tree. -/
def writeStaging (fs : FS) (temp : String) : Option Nat → FS
  | none => fs
  | some n => fs.set temp n

/-- Models `if os.path.exists(p): os.remove(p)` — the guarded delete both error
handlers perform on the staging file. -/
def delIfExists (fs : FS) (p : String) : FS :=
  if (fs p).isSome then fs.del p else fs

/-! ## `VideoProcessor` (`src/video_optimizer/video_processor.py`) -/

namespace VP

/-- The file operations shared by `_handle_ffmpeg_error` and
`_handle_unexpected_error`: delete the staging file if it exists, then move
the *original* input to the `errored` tree (`move_to_errored`); the move
re-raises on failure. -/
def handleErrorMoves (cfg : Config) (fs : FS) (input rel temp : String) :
    Except (Err × FS) FS :=
  match shutilMove (delIfExists fs temp) input (pjoin cfg.ERRORED_ROOT rel) with
  | Except.error e => Except.error (e, delIfExists fs temp)
  | Except.ok fs2 => Except.ok fs2

/-- Rendering of a caught exception into the `{e}` of the result f-string. -/
def errText : Err → String
  | Err.moveFailed src dst => "Failed to move " ++ (src ++ (" to " ++ dst))
  | Err.removeFailed p => "No such file or directory: " ++ p
  | Err.renameFailed src _ => "No such file or directory: " ++ src
  | Err.getsizeFailed p => "No such file or directory: " ++ p
  | Err.toolCrash => "ffmpeg stream failure"

/-- The body of the `try:` block of `VideoProcessor.process_video`
(lines 180-223): run ffmpeg; on nonzero exit run `_handle_ffmpeg_error` and
return the "Error processing" string; on exit 0 rename the staging file to
the output tree, compare sizes, and either do the size-regressed moves
(including the final `os.remove(final_output_path)`) or move the original to
`done`; any raise is surfaced as `Except.error` together with the filesystem
at the raise point. -/
def tryBody (cfg : Config) (env : Env) (fs : FS) (input rel temp finalOut : String) :
    Except (Err × FS) (String × FS) :=
  match env.ffmpeg with
  | FfmpegRun.crashes written => Except.error (Err.toolCrash, writeStaging fs temp written)
  | FfmpegRun.exits code written =>
    if code ≠ 0 then
      match handleErrorMoves cfg (writeStaging fs temp written) input rel temp with
      | Except.error e => Except.error e
      | Except.ok fs2 =>
        Except.ok ("Error processing '" ++ (input ++ ("' (ffmpeg returned " ++
          (toString code ++ ("). Moved original to '" ++
            (pjoin cfg.ERRORED_ROOT rel ++ "'"))))), fs2)
    else
      match osRename (writeStaging fs temp written) temp finalOut with
      | Except.error e => Except.error (e, writeStaging fs temp written)
      | Except.ok fs1 =>
        match osGetsize fs1 input with
        | Except.error e => Except.error (e, fs1)
        | Except.ok sizeIn =>
          match osGetsize fs1 finalOut with
          | Except.error e => Except.error (e, fs1)
          | Except.ok sizeOut =>
            if sizeIn < sizeOut then
              match shutilMove fs1 finalOut
                  (pjoin cfg.OPTIMIZED_BAD_ROOT (pyReplace rel ".mp4" ".mp4")) with
              | Except.error e => Except.error (e, fs1)
              | Except.ok fs2 =>
                match shutilMove fs2 input (pjoin cfg.OPTIMIZED_ORIGINAL_ROOT rel) with
                | Except.error e => Except.error (e, fs2)
                | Except.ok fs3 =>
                  match osRemove fs3 finalOut with
                  | Except.error e => Except.error (e, fs3)
                  | Except.ok fs4 =>
                    Except.ok ("Processed '" ++ (input ++ ("' -> '" ++ (finalOut ++ "'"))), fs4)
            else
              match shutilMove fs1 input (pjoin cfg.DONE_ROOT rel) with
              | Except.error e => Except.error (e, fs1)
              | Except.ok fs2 =>
                Except.ok ("Processed '" ++ (input ++ ("' -> '" ++ (finalOut ++ "'"))), fs2)

/-- The staging path `process_video` computes for a relative path. -/
def tempPath (cfg : Config) (rel : String) : String :=
  pjoin cfg.IN_PROGRESS_ROOT (splitextBase rel ++ ".mp4")

/-- The final output path `process_video` computes for a relative path. -/
def finalPath (cfg : Config) (rel : String) : String :=
  pjoin cfg.OUTPUT_ROOT (splitextBase rel ++ ".mp4")

/-- From `VideoProcessor.process_video`.  A normal Python return is `Except.ok`
(result string, filesystem); an exception escaping the function — which
happens exactly when the relocation inside the `except` handler itself
raises — is `Except.error`. -/
def processVideo (cfg : Config) (env : Env) (fs : FS) (input : String) :
    Except (Err × FS) (String × FS) :=
  match env.relpath input with
  | none => Except.ok ("Error computing relative path for '" ++ (input ++ "': ValueError"), fs)
  | some rel =>
    match tryBody cfg env fs input rel (tempPath cfg rel) (finalPath cfg rel) with
    | Except.ok r => Except.ok r
    | Except.error (e, fsE) =>
      match handleErrorMoves cfg fsE input rel (tempPath cfg rel) with
      | Except.error e2 => Except.error e2
      | Except.ok fs2 =>
        Except.ok ("Exception processing '" ++ (input ++ ("': " ++ (errText e ++
          (". Moved original to '" ++ (pjoin cfg.ERRORED_ROOT rel ++ "'"))))), fs2)

end VP

/-! ## Result projections (to state facts about concrete runs without
quantifying over the functional filesystem) -/

def okStrOf (r : Except (Err × FS) (String × FS)) : Option String :=
  match r with
  | Except.ok (s, _) => some s
  | Except.error _ => none

def okFsAt (r : Except (Err × FS) (String × FS)) (p : String) : Option (Option Nat) :=
  match r with
  | Except.ok (_, fs) => some (fs p)
  | Except.error _ => none

def errOf (r : Except (Err × FS) (String × FS)) : Option Err :=
  match r with
  | Except.ok _ => none
  | Except.error (e, _) => some e

def errFsAt (r : Except (Err × FS) (String × FS)) (p : String) : Option (Option Nat) :=
  match r with
  | Except.ok _ => none
  | Except.error (_, fs) => some (fs p)

/-! ## The size-regressed scenario

A single input `./to-convert/clip.mkv` of 100 bytes; ffmpeg succeeds (exit 0)
and writes a 200-byte staging file, so the original is strictly smaller than
the produced output. -/

/-- The input path of the scenario. -/
def cInput : String := "./to-convert/clip.mkv"

/-- Environment: `os.path.relpath` resolves the input to `clip.mkv`; ffmpeg
exits 0 after writing 200 bytes of output. -/
def envRegressed : Env :=
  ⟨fun p => if p = cInput then some "clip.mkv" else none,
   FfmpegRun.exits 0 (some 200)⟩

/-- Initial filesystem: only the 100-byte original exists. -/
def fsRegressed : FS :=
  fun p => if p = cInput then some 100 else none

/-- C1: in the size-regressed branch of `VideoProcessor.process_video` the
two moves do happen (output → `optimized-bad`, original →
`optimized-original`, nothing left in `optimized`), but the subsequent
`os.remove(final_output_path)` raises `FileNotFoundError` (the file was
already moved away), the handler's `move_to_errored` then fails on the
already-moved original, and the exception escapes `process_video` instead of
it returning normally. -/
theorem size_regressed_does_not_return_normally :
    errOf (VP.processVideo defaultConfig envRegressed fsRegressed cInput)
        = some (Err.moveFailed cInput "errored/clip.mkv")
      ∧ errFsAt (VP.processVideo defaultConfig envRegressed fsRegressed cInput)
          "optimized-bad/clip.mkv" = some (some 200)
      ∧ errFsAt (VP.processVideo defaultConfig envRegressed fsRegressed cInput)
          "optimized-original/clip.mkv" = some (some 100)
      ∧ errFsAt (VP.processVideo defaultConfig envRegressed fsRegressed cInput)
          "optimized/clip.mp4" = some none := by
  refine ⟨by decide, by decide, by decide, by decide⟩

/-! ## `convert.py` (module-level prototype variant) -/

namespace Convert

/-- From `convert.py`: `handle_ffmpeg_error` / `handle_unexpected_error` +
`move_to_errored`: delete the staging file if present, move the original to
`errored`, re-raising a failed move. -/
def handleErrorMoves (cfg : Config) (fs : FS) (input rel temp : String) :
    Except (Err × FS) FS :=
  match shutilMove (delIfExists fs temp) input (pjoin cfg.ERRORED_ROOT rel) with
  | Except.error e => Except.error (e, delIfExists fs temp)
  | Except.ok fs2 => Except.ok fs2

/-- The `try:` block of `convert.py`'s `process_video` (lines 130-165).
Unlike the `VideoProcessor` variant, the size-regressed branch has no
`os.remove` after the two moves and returns normally. -/
def tryBody (cfg : Config) (env : Env) (fs : FS) (input rel temp finalOut : String) :
    Except (Err × FS) (String × FS) :=
  match env.ffmpeg with
  | FfmpegRun.crashes written => Except.error (Err.toolCrash, writeStaging fs temp written)
  | FfmpegRun.exits code written =>
    if code ≠ 0 then
      match handleErrorMoves cfg (writeStaging fs temp written) input rel temp with
      | Except.error e => Except.error e
      | Except.ok fs2 =>
        Except.ok ("Error processing " ++ (input ++ (": (ffmpeg returned " ++
          (toString code ++ ("). Moved to " ++ pjoin cfg.ERRORED_ROOT rel)))), fs2)
    else
      match osRename (writeStaging fs temp written) temp finalOut with
      | Except.error e => Except.error (e, writeStaging fs temp written)
      | Except.ok fs1 =>
        match osGetsize fs1 input with
        | Except.error e => Except.error (e, fs1)
        | Except.ok sizeIn =>
          match osGetsize fs1 finalOut with
          | Except.error e => Except.error (e, fs1)
          | Except.ok sizeOut =>
            if sizeIn < sizeOut then
              match shutilMove fs1 finalOut
                  (pjoin cfg.OPTIMIZED_BAD_ROOT (pyReplace rel ".mp4" ".mp4")) with
              | Except.error e => Except.error (e, fs1)
              | Except.ok fs2 =>
                match shutilMove fs2 input (pjoin cfg.OPTIMIZED_ORIGINAL_ROOT rel) with
                | Except.error e => Except.error (e, fs2)
                | Except.ok fs3 =>
                  Except.ok ("Processed " ++ (input ++ (" -> " ++ finalOut)), fs3)
            else
              match shutilMove fs1 input (pjoin cfg.DONE_ROOT rel) with
              | Except.error e => Except.error (e, fs1)
              | Except.ok fs2 =>
                Except.ok ("Processed " ++ (input ++ (" -> " ++ finalOut)), fs2)

/-- From `convert.py`: `process_video` (lines 107-169): relative-path
resolution, the in-function skip-directory check, then the `try`/`except`
around the conversion. -/
def processVideo (cfg : Config) (env : Env) (fs : FS) (input : String) :
    Except (Err × FS) (String × FS) :=
  match env.relpath input with
  | none => Except.ok ("Error computing relative path for " ++ (input ++ ": ValueError"), fs)
  | some rel =>
    if checkSkip cfg rel then
      Except.ok ("Skipped: " ++ (input ++ " (already in a target directory)"), fs)
    else
      match tryBody cfg env fs input rel (VP.tempPath cfg rel) (VP.finalPath cfg rel) with
      | Except.ok r => Except.ok r
      | Except.error (e, fsE) =>
        match handleErrorMoves cfg fsE input rel (VP.tempPath cfg rel) with
        | Except.error e2 => Except.error e2
        | Except.ok fs2 =>
          Except.ok ("Exception processing " ++ (input ++ (": " ++ (VP.errText e ++
            (". Moved to " ++ pjoin cfg.ERRORED_ROOT rel)))), fs2)

end Convert

/-- The four running counters (`success`, `error`, `skipped`, `size_issue`)
of both main loops. -/
structure Counters where
  success : Nat
  error : Nat
  skipped : Nat
  size_issue : Nat
deriving DecidableEq

namespace Convert

/-- The counter bucketing of `convert.py`'s main loop (lines 254-266): the
result string is classified by `startswith` prefixes, with the
size-regression marker searched via `"Original file is smaller" in result`. -/
def classify (result : String) : Counters :=
  if pyStartswith result "Processed" then
    if pyIn "Original file is smaller" result then ⟨0, 0, 0, 1⟩
    else ⟨1, 0, 0, 0⟩
  else if pyStartswith result "Error" || pyStartswith result "Exception" then ⟨0, 1, 0, 0⟩
  else if pyStartswith result "Skipped" then ⟨0, 0, 1, 0⟩
  else ⟨0, 0, 0, 0⟩

/-- The counter bucket a finished `convert.py` `process_video` run lands in
(`⟨0,0,0,0⟩` if the run raised, in which case the loop dies before
counting). -/
def classifyRun (r : Except (Err × FS) (String × FS)) : Counters :=
  match okStrOf r with
  | some s => classify s
  | none => ⟨0, 0, 0, 0⟩

end Convert

/-- C3, counterexample evidence: in the `convert.py` variant the
size-regressed branch completes — output lands in `optimized-bad`, original
in `optimized-original` — yet the returned result string lacks the
`"Original file is smaller"` marker (that text is only logged, never
returned), so the main loop increments `success` and the `size_issue`
counter stays 0. -/
theorem size_regressed_counted_as_success :
    okFsAt (Convert.processVideo defaultConfig envRegressed fsRegressed cInput)
        "optimized-bad/clip.mkv" = some (some 200)
      ∧ okFsAt (Convert.processVideo defaultConfig envRegressed fsRegressed cInput)
          "optimized-original/clip.mkv" = some (some 100)
      ∧ Convert.classifyRun (Convert.processVideo defaultConfig envRegressed fsRegressed cInput)
          = ⟨1, 0, 0, 0⟩ := by
  refine ⟨by decide, by decide, by decide⟩

/-- C5, counterexample evidence: for input `clip.mkv`, staging and output
paths are normalized to `clip.mp4`, but `rel_path.replace(".mp4", ".mp4")`
is a no-op, so in the size-regressed branch the output is moved to
`optimized-bad/clip.mkv` — the input extension, not `.mp4`. -/
theorem optimized_bad_keeps_input_extension :
    VP.tempPath defaultConfig "clip.mkv" = "in-progress/clip.mp4"
      ∧ VP.finalPath defaultConfig "clip.mkv" = "optimized/clip.mp4"
      ∧ pyReplace "clip.mkv" ".mp4" ".mp4" = "clip.mkv"
      ∧ okFsAt (Convert.processVideo defaultConfig envRegressed fsRegressed cInput)
          "optimized-bad/clip.mkv" = some (some 200)
      ∧ okFsAt (Convert.processVideo defaultConfig envRegressed fsRegressed cInput)
          "optimized-bad/clip.mp4" = some none := by
  refine ⟨by decide, by decide, by decide, by decide, by decide⟩

/-! ## `main.py`: per-file processing -/

namespace Main

/-- From `main.py`: `process_file_from_queue` (lines 22-57): resolve the
relative path (`ValueError` → error counter), check skip directories
(→ skipped counter), otherwise run `VideoProcessor.process_video` — which is
*not* wrapped in a `try` here, so a raise propagates — and bucket its result
string by `startswith` prefixes.  In every normal-return branch
`processed_files.add(input_path)` has happened.  The fall-through branch
(result matching no prefix) increments nothing, exactly as in the source. -/
def processFileFromQueue (cfg : Config) (env : Env) (fs : FS)
    (processed : List String) (input : String) :
    Except (Err × FS) (Counters × List String × FS) :=
  match env.relpath input with
  | none => Except.ok (⟨0, 1, 0, 0⟩, input :: processed, fs)
  | some rel =>
    if checkSkip cfg rel then Except.ok (⟨0, 0, 1, 0⟩, input :: processed, fs)
    else
      match VP.processVideo cfg env fs input with
      | Except.error efs => Except.error efs
      | Except.ok (result, fs2) =>
        if pyStartswith result "Processed" then
          if pyIn "Original file is smaller" result then
            Except.ok (⟨0, 0, 0, 1⟩, input :: processed, fs2)
          else
            Except.ok (⟨1, 0, 0, 0⟩, input :: processed, fs2)
        else if pyStartswith result "Error" || pyStartswith result "Exception" then
          Except.ok (⟨0, 1, 0, 0⟩, input :: processed, fs2)
        else
          Except.ok (⟨0, 0, 0, 0⟩, input :: processed, fs2)

end Main

/-- Exactly one of the four counters was incremented, by exactly one. -/
def oneOfFour (c : Counters) : Prop :=
  c = ⟨1, 0, 0, 0⟩ ∨ c = ⟨0, 1, 0, 0⟩ ∨ c = ⟨0, 0, 1, 0⟩ ∨ c = ⟨0, 0, 0, 1⟩

def qErrOf (r : Except (Err × FS) (Counters × List String × FS)) : Option Err :=
  match r with
  | Except.ok _ => none
  | Except.error (e, _) => some e

/-! ## String-prefix facts about the result strings -/

theorem listIsPfx_append (p : List Char) :
    ∀ x y : List Char, listIsPfx p x = true → listIsPfx p (x ++ y) = true := by
  induction p with
  | nil => intro x y _; rfl
  | cons a as ih =>
    intro x y h
    cases x with
    | nil => simp [listIsPfx] at h
    | cons b bs =>
      simp only [listIsPfx, Bool.and_eq_true] at h ⊢
      exact ⟨h.1, ih bs y h.2⟩

/-- If `pre` is a literal prefix of the leading literal `head`, then the
Python `startswith` test succeeds on `head ++ rest`. -/
theorem pyStartswith_head (pre head rest : String)
    (h : listIsPfx pre.data head.data = true) :
    pyStartswith (head ++ rest) pre = true := by
  unfold pyStartswith
  rw [String.data_append]
  exact listIsPfx_append _ _ _ h

theorem shutilMove_error_shape (fs : FS) (src dst : String) (e : Err)
    (h : shutilMove fs src dst = Except.error e) : e = Err.moveFailed src dst := by
  unfold shutilMove at h
  split at h
  · simp only [Except.error.injEq] at h
    exact h.symm
  · simp at h

theorem vp_handleErrorMoves_error_shape (cfg : Config) (fs : FS)
    (input rel temp : String) (e : Err) (fsE : FS)
    (h : VP.handleErrorMoves cfg fs input rel temp = Except.error (e, fsE)) :
    e = Err.moveFailed input (pjoin cfg.ERRORED_ROOT rel) := by
  unfold VP.handleErrorMoves at h
  split at h
  case h_1 e0 heq =>
    simp only [Except.error.injEq, Prod.mk.injEq] at h
    rw [← h.1]
    exact shutilMove_error_shape _ _ _ _ heq
  case h_2 => simp at h

/-- Every exception escaping `VP.processVideo` is the error handler's
`move_to_errored` failing on the original input. -/
theorem vp_processVideo_error_shape (cfg : Config) (env : Env) (fs : FS)
    (input : String) (e : Err) (fsE : FS)
    (h : VP.processVideo cfg env fs input = Except.error (e, fsE)) :
    ∃ rel, env.relpath input = some rel
      ∧ e = Err.moveFailed input (pjoin cfg.ERRORED_ROOT rel) := by
  unfold VP.processVideo at h
  split at h
  · simp at h
  case h_2 rel hrel =>
    refine ⟨rel, hrel, ?_⟩
    split at h
    · simp at h
    case h_2 e0 fs0 heq =>
      split at h
      case h_1 e2 hh =>
        simp only [Except.error.injEq] at h
        rw [h] at hh
        exact vp_handleErrorMoves_error_shape _ _ _ _ _ _ _ hh
      case h_2 => simp at h

/-- Every string `VP.processVideo` returns normally starts with
`"Processed"`, `"Error"` or `"Exception"`. -/
theorem vp_tryBody_ok_pfx (cfg : Config) (env : Env) (fs : FS)
    (input rel temp finalOut r : String) (fs2 : FS)
    (h : VP.tryBody cfg env fs input rel temp finalOut = Except.ok (r, fs2)) :
    pyStartswith r "Processed" = true ∨ pyStartswith r "Error" = true := by
  unfold VP.tryBody at h
  split at h
  · simp at h
  · split at h
    · split at h
      · simp at h
      · simp only [Except.ok.injEq, Prod.mk.injEq] at h
        refine Or.inr ?_
        rw [← h.1]
        exact pyStartswith_head _ _ _ (by decide)
    · split at h
      · simp at h
      · split at h
        · simp at h
        · split at h
          · simp at h
          · split at h
            · split at h
              · simp at h
              · split at h
                · simp at h
                · split at h
                  · simp at h
                  · simp only [Except.ok.injEq, Prod.mk.injEq] at h
                    refine Or.inl ?_
                    rw [← h.1]
                    exact pyStartswith_head _ _ _ (by decide)
            · split at h
              · simp at h
              · simp only [Except.ok.injEq, Prod.mk.injEq] at h
                refine Or.inl ?_
                rw [← h.1]
                exact pyStartswith_head _ _ _ (by decide)

theorem vp_processVideo_ok_pfx (cfg : Config) (env : Env) (fs : FS)
    (input r : String) (fs2 : FS)
    (h : VP.processVideo cfg env fs input = Except.ok (r, fs2)) :
    pyStartswith r "Processed" = true ∨ pyStartswith r "Error" = true
      ∨ pyStartswith r "Exception" = true := by
  unfold VP.processVideo at h
  split at h
  · simp only [Except.ok.injEq, Prod.mk.injEq] at h
    refine Or.inr (Or.inl ?_)
    rw [← h.1]
    exact pyStartswith_head _ _ _ (by decide)
  case h_2 rel hrel =>
    split at h
    case h_1 rr heq =>
      simp only [Except.ok.injEq] at h
      rw [h] at heq
      rcases vp_tryBody_ok_pfx _ _ _ _ _ _ _ _ _ heq with hp | hp
      · exact Or.inl hp
      · exact Or.inr (Or.inl hp)
    case h_2 e0 fs0 heq =>
      split at h
      · simp at h
      · simp only [Except.ok.injEq, Prod.mk.injEq] at h
        refine Or.inr (Or.inr ?_)
        rw [← h.1]
        exact pyStartswith_head _ _ _ (by decide)

/-- Shared shape fact for normal returns of `process_file_from_queue`:
exactly one counter is incremented and the input is in `processed_files`. -/
theorem main_pfq_ok_shape (cfg : Config) (env : Env) (fs : FS)
    (processed : List String) (input : String) (c : Counters)
    (pr : List String) (fs2 : FS)
    (h : Main.processFileFromQueue cfg env fs processed input = Except.ok (c, pr, fs2)) :
    oneOfFour c ∧ input ∈ pr := by
  unfold Main.processFileFromQueue at h
  split at h
  · simp only [Except.ok.injEq, Prod.mk.injEq] at h
    refine ⟨Or.inr (Or.inl h.1.symm), ?_⟩
    rw [← h.2.1]
    exact List.mem_cons_self _ _
  · split at h
    · simp only [Except.ok.injEq, Prod.mk.injEq] at h
      refine ⟨Or.inr (Or.inr (Or.inl h.1.symm)), ?_⟩
      rw [← h.2.1]
      exact List.mem_cons_self _ _
    · split at h
      · simp at h
      case h_2 result fs0 heq =>
        have hpfx := vp_processVideo_ok_pfx _ _ _ _ _ _ heq
        split at h
        · split at h
          · simp only [Except.ok.injEq, Prod.mk.injEq] at h
            refine ⟨Or.inr (Or.inr (Or.inr h.1.symm)), ?_⟩
            rw [← h.2.1]
            exact List.mem_cons_self _ _
          · simp only [Except.ok.injEq, Prod.mk.injEq] at h
            refine ⟨Or.inl h.1.symm, ?_⟩
            rw [← h.2.1]
            exact List.mem_cons_self _ _
        · split at h
          · simp only [Except.ok.injEq, Prod.mk.injEq] at h
            refine ⟨Or.inr (Or.inl h.1.symm), ?_⟩
            rw [← h.2.1]
            exact List.mem_cons_self _ _
          case isFalse hP hEE =>
            exfalso
            rcases hpfx with hp | hp | hp
            · exact hP hp
            · rw [hp] at hEE
              simp at hEE
            · rw [hp] at hEE
              simp at hEE

/-- C10: every normal return of `process_file_from_queue` increments exactly
one of the four counters it returns by exactly one (the other three stay 0),
and in every branch — relative-path failure, skip, and all result-string
buckets — the input path is in `processed_files` on return. -/
theorem per_file_exactly_one_counter (cfg : Config) (env : Env) (fs : FS)
    (processed : List String) (input : String) (c : Counters)
    (pr : List String) (fs2 : FS)
    (h : Main.processFileFromQueue cfg env fs processed input = Except.ok (c, pr, fs2)) :
    oneOfFour c ∧ input ∈ pr :=
  main_pfq_ok_shape cfg env fs processed input c pr fs2 h

/-- Environment in which relative-path resolution raises `ValueError`. -/
def envResolveFail : Env := ⟨fun _ => none, FfmpegRun.exits 0 none⟩

/-- The empty filesystem. -/
def fsEmpty : FS := fun _ => none

/-- Witness for C10 at a concrete input: the `ValueError` branch returns the
error counter and records the path as processed. -/
theorem per_file_exactly_one_counter_witness :
    oneOfFour ⟨0, 1, 0, 0⟩ ∧ cInput ∈ [cInput] :=
  per_file_exactly_one_counter defaultConfig envResolveFail fsEmpty [] cInput
    ⟨0, 1, 0, 0⟩ [cInput] fsEmpty rfl

/-- C2, counterexample: with the size-regressed scenario, the exception from
the error handler's relocation escapes `process_file_from_queue` (the
`process_video` call is not wrapped in a `try` there), so a per-file error
is *not* converted into a counter: it crashes the discovery loop. -/
theorem error_escapes_per_file_boundary :
    qErrOf (Main.processFileFromQueue defaultConfig envRegressed fsRegressed [] cInput)
      = some (Err.moveFailed cInput "errored/clip.mkv") := by
  decide

/-- Shape of escaping errors of `process_file_from_queue`. -/
theorem main_pfq_error_shape (cfg : Config) (env : Env) (fs : FS)
    (processed : List String) (input : String) (e : Err) (fsE : FS)
    (h : Main.processFileFromQueue cfg env fs processed input = Except.error (e, fsE)) :
    ∃ rel, env.relpath input = some rel
      ∧ e = Err.moveFailed input (pjoin cfg.ERRORED_ROOT rel) := by
  unfold Main.processFileFromQueue at h
  split at h
  · simp at h
  case h_2 rel hrel =>
    refine ⟨rel, hrel, ?_⟩
    split at h
    · simp at h
    · split at h
      case h_1 efs heq =>
        simp only [Except.error.injEq] at h
        rw [h] at heq
        obtain ⟨rel2, hrel2, he⟩ := vp_processVideo_error_shape _ _ _ _ _ _ heq
        rw [hrel] at hrel2
        cases hrel2
        exact he
      case h_2 result fs0 heq =>
        split at h
        · split at h <;> simp at h
        · split at h <;> simp at h

/-- C2, amended: every per-file error raised inside the processing body is
caught at the file-processing boundary and converted into exactly one of the
four terminal counters — *except* that a failure of the relocation performed
inside the error handler (`move_to_errored` re-raising) propagates out of
`process_video` and out of `process_file_from_queue`, terminating the
discovery loop; any escaping exception has exactly that shape. -/
theorem per_file_error_boundary (cfg : Config) (env : Env) (fs : FS)
    (processed : List String) (input : String) :
    (∃ c pr fs2, Main.processFileFromQueue cfg env fs processed input
        = Except.ok (c, pr, fs2) ∧ oneOfFour c)
      ∨ (∃ rel fs2, env.relpath input = some rel
          ∧ Main.processFileFromQueue cfg env fs processed input
              = Except.error (Err.moveFailed input (pjoin cfg.ERRORED_ROOT rel), fs2)) := by
  cases hr : Main.processFileFromQueue cfg env fs processed input with
  | ok out =>
    obtain ⟨c, pr, fs2⟩ := out
    exact Or.inl ⟨c, pr, fs2, rfl, (main_pfq_ok_shape _ _ _ _ _ _ _ _ hr).1⟩
  | error efs =>
    obtain ⟨e, fsE⟩ := efs
    obtain ⟨rel, hrel, he⟩ := main_pfq_error_shape _ _ _ _ _ _ _ hr
    subst he
    exact Or.inr ⟨rel, fsE, hrel, rfl⟩

/-! ## C6: failed transcodes clean staging and route the original -/

theorem FS.set_apply_self (fs : FS) (p : String) (n : Nat) : FS.set fs p n p = some n := by
  unfold FS.set
  rw [if_pos rfl]

theorem FS.set_apply_ne (fs : FS) (p q : String) (n : Nat) (h : q ≠ p) :
    FS.set fs p n q = fs q := by
  unfold FS.set
  rw [if_neg h]

theorem FS.del_apply_self (fs : FS) (p : String) : FS.del fs p p = none := by
  unfold FS.del
  rw [if_pos rfl]

theorem FS.del_apply_ne (fs : FS) (p q : String) (h : q ≠ p) : FS.del fs p q = fs q := by
  unfold FS.del
  rw [if_neg h]

theorem delIfExists_apply_self (fs : FS) (p : String) : delIfExists fs p p = none := by
  unfold delIfExists
  cases h : fs p with
  | none => simp [h]
  | some n => simp [h, FS.del_apply_self]

theorem delIfExists_apply_ne (fs : FS) (p q : String) (h : q ≠ p) :
    delIfExists fs p q = fs q := by
  unfold delIfExists
  cases hp : fs p with
  | none => simp
  | some n => simp [FS.del_apply_ne _ _ _ h]

/-- When the original input exists and is distinct from the staging path and
the errored destination, both error handlers succeed: the staging file is
gone, the original sits in `errored`, and the input location is empty. -/
theorem vp_handleErrorMoves_ok (cfg : Config) (fs : FS) (input rel temp : String)
    (sIn : Nat) (hin : fs input = some sIn) (h1 : input ≠ temp)
    (h2 : input ≠ pjoin cfg.ERRORED_ROOT rel) (h3 : pjoin cfg.ERRORED_ROOT rel ≠ temp) :
    ∃ fs2, VP.handleErrorMoves cfg fs input rel temp = Except.ok fs2
      ∧ fs2 temp = none ∧ fs2 (pjoin cfg.ERRORED_ROOT rel) = some sIn
      ∧ fs2 input = none := by
  have hd : delIfExists fs temp input = some sIn := by
    rw [delIfExists_apply_ne _ _ _ h1, hin]
  have hmove : shutilMove (delIfExists fs temp) input (pjoin cfg.ERRORED_ROOT rel)
      = Except.ok (((delIfExists fs temp).del input).set (pjoin cfg.ERRORED_ROOT rel) sIn) := by
    unfold shutilMove
    rw [hd]
  refine ⟨((delIfExists fs temp).del input).set (pjoin cfg.ERRORED_ROOT rel) sIn,
    ?_, ?_, ?_, ?_⟩
  · unfold VP.handleErrorMoves
    rw [hmove]
  · rw [FS.set_apply_ne _ _ _ _ (Ne.symm h3), FS.del_apply_ne _ _ _ (Ne.symm h1),
      delIfExists_apply_self]
  · rw [FS.set_apply_self]
  · rw [FS.set_apply_ne _ _ _ _ h2, FS.del_apply_self]

/-- The ffmpeg invocation did not end in the Succeeded state: nonzero exit
code, or a raise (missing executable / streaming failure). -/
def ffmpegNotSucceeded : FfmpegRun → Prop
  | FfmpegRun.exits code _ => code ≠ 0
  | FfmpegRun.crashes _ => True

/-- C6: for every transcoder invocation that does not end in Succeeded, the
staging file in the in-progress tree is deleted (if it existed) and the
*original* input — not the staging file — ends up in the errored tree at its
relative path; `process_video` returns normally. -/
theorem failed_transcode_routes_original (env : Env) (fs : FS) (input rel : String)
    (sIn : Nat)
    (hrel : env.relpath input = some rel)
    (hin : fs input = some sIn)
    (hfail : ffmpegNotSucceeded env.ffmpeg)
    (h1 : input ≠ VP.tempPath defaultConfig rel)
    (h2 : input ≠ pjoin defaultConfig.ERRORED_ROOT rel)
    (h3 : pjoin defaultConfig.ERRORED_ROOT rel ≠ VP.tempPath defaultConfig rel) :
    ∃ r fs2, VP.processVideo defaultConfig env fs input = Except.ok (r, fs2)
      ∧ fs2 (VP.tempPath defaultConfig rel) = none
      ∧ fs2 (pjoin defaultConfig.ERRORED_ROOT rel) = some sIn
      ∧ fs2 input = none := by
  cases hff : env.ffmpeg with
  | exits code written =>
    rw [hff] at hfail
    have hc : code ≠ 0 := hfail
    have hW : writeStaging fs (VP.tempPath defaultConfig rel) written input = some sIn := by
      cases written with
      | none => exact hin
      | some n => rw [writeStaging, FS.set_apply_ne _ _ _ _ h1, hin]
    obtain ⟨fs2, hhm, ht, he, hi⟩ := vp_handleErrorMoves_ok defaultConfig
      (writeStaging fs (VP.tempPath defaultConfig rel) written) input rel
      (VP.tempPath defaultConfig rel) sIn hW h1 h2 h3
    have htb : VP.tryBody defaultConfig env fs input rel (VP.tempPath defaultConfig rel)
        (VP.finalPath defaultConfig rel)
        = Except.ok ("Error processing '" ++ (input ++ ("' (ffmpeg returned " ++
            (toString code ++ ("). Moved original to '" ++
              (pjoin defaultConfig.ERRORED_ROOT rel ++ "'"))))), fs2) := by
      unfold VP.tryBody
      rw [hff]
      dsimp only
      rw [if_pos hc, hhm]
    refine ⟨"Error processing '" ++ (input ++ ("' (ffmpeg returned " ++
        (toString code ++ ("). Moved original to '" ++
          (pjoin defaultConfig.ERRORED_ROOT rel ++ "'"))))), fs2, ?_, ht, he, hi⟩
    simp only [VP.processVideo, hrel]
    rw [htb]
  | crashes written =>
    have hW : writeStaging fs (VP.tempPath defaultConfig rel) written input = some sIn := by
      cases written with
      | none => exact hin
      | some n => rw [writeStaging, FS.set_apply_ne _ _ _ _ h1, hin]
    obtain ⟨fs2, hhm, ht, he, hi⟩ := vp_handleErrorMoves_ok defaultConfig
      (writeStaging fs (VP.tempPath defaultConfig rel) written) input rel
      (VP.tempPath defaultConfig rel) sIn hW h1 h2 h3
    have htb : VP.tryBody defaultConfig env fs input rel (VP.tempPath defaultConfig rel)
        (VP.finalPath defaultConfig rel)
        = Except.error (Err.toolCrash, writeStaging fs (VP.tempPath defaultConfig rel) written) := by
      unfold VP.tryBody
      rw [hff]
    refine ⟨"Exception processing '" ++ (input ++ ("': " ++ (VP.errText Err.toolCrash ++
        (". Moved original to '" ++ (pjoin defaultConfig.ERRORED_ROOT rel ++ "'"))))),
      fs2, ?_, ht, he, hi⟩
    simp only [VP.processVideo, hrel]
    rw [htb]
    dsimp only
    rw [hhm]

/-- Environment for the C6 witness: ffmpeg exits 1 leaving a 50-byte partial
staging file. -/
def envToolFailed : Env :=
  ⟨fun p => if p = cInput then some "clip.mkv" else none, FfmpegRun.exits 1 (some 50)⟩

/-- Witness for C6 at a concrete input. -/
theorem failed_transcode_routes_original_witness :
    ∃ r fs2, VP.processVideo defaultConfig envToolFailed fsRegressed cInput = Except.ok (r, fs2)
      ∧ fs2 (VP.tempPath defaultConfig "clip.mkv") = none
      ∧ fs2 (pjoin defaultConfig.ERRORED_ROOT "clip.mkv") = some 100
      ∧ fs2 cInput = none :=
  failed_transcode_routes_original envToolFailed fsRegressed cInput "clip.mkv" 100
    rfl (by decide) (show (1 : Int) ≠ 0 by decide) (by decide) (by decide) (by decide)

/-! ## Discovery (`FileManager.collect_video_files`, `os.walk` with pruning)

A directory tree is a mutual inductive (`DirTree` with its child list
`DirList`) so that structural recursion and induction stay simple.  `os.walk`
is top-down; `dirs[:] = [d for d in dirs if d not in skip_dirs]` prunes the
traversal, which `walkCollectDirs` mirrors by skipping pruned children. -/

mutual
inductive DirTree where
  | node (dirs : DirList) (files : List String)
inductive DirList where
  | nil
  | cons (name : String) (tree : DirTree) (rest : DirList)
end

mutual

/-- The paths accumulated by the `os.walk` loop of `collect_video_files`
below directory `root` with contents `t`: every file with a video extension
whose full path is not in `processed_files`, root's files first, then the
non-pruned subdirectories in order. -/
def walkCollect (cfg : Config) (processed : List String) (root : String) :
    DirTree → List String
  | DirTree.node dirs files =>
    files.filterMap (fun f =>
      if isVideoFile cfg (pjoin root f) && !(processed.contains (pjoin root f)) then
        some (pjoin root f)
      else none)
    ++ walkCollectDirs cfg processed root dirs

def walkCollectDirs (cfg : Config) (processed : List String) (root : String) :
    DirList → List String
  | DirList.nil => []
  | DirList.cons d t rest =>
    (if (skipDirs cfg).contains d then [] else walkCollect cfg processed (pjoin root d) t)
    ++ walkCollectDirs cfg processed root rest

end

/-! Python's `list.sort()` on the collected paths: strings are totally
ordered by code points, so the stable `list.sort` coincides with insertion
sort (equal keys are identical strings). -/

/-- Lexicographic code-point order on character lists. -/
def charListLe : List Char → List Char → Bool
  | [], _ => true
  | _ :: _, [] => false
  | a :: as, b :: bs => if a < b then true else if b < a then false else charListLe as bs

def strLeB (a b : String) : Bool := charListLe a.data b.data

def insertSorted (x : String) : List String → List String
  | [] => [x]
  | y :: t => if strLeB x y then x :: y :: t else y :: insertSorted x t

def sortStrings : List String → List String
  | [] => []
  | x :: t => insertSorted x (sortStrings t)

/-- `FileManager.collect_video_files`: walk, sort, optionally reverse. -/
def collectVideoFiles (cfg : Config) (processed : List String) (t : DirTree) : List String :=
  if cfg.REVERSE_ORDER then (sortStrings (walkCollect cfg processed cfg.SOURCE_ROOT t)).reverse
  else sortStrings (walkCollect cfg processed cfg.SOURCE_ROOT t)

theorem insertSorted_perm (x : String) (l : List String) :
    (insertSorted x l).Perm (x :: l) := by
  induction l with
  | nil => exact List.Perm.refl _
  | cons y t ih =>
    unfold insertSorted
    split
    · exact List.Perm.refl _
    · exact (List.Perm.cons y ih).trans (List.Perm.swap x y t)

theorem sortStrings_perm (l : List String) : (sortStrings l).Perm l := by
  induction l with
  | nil => exact List.Perm.refl _
  | cons x t ih =>
    exact (insertSorted_perm x (sortStrings t)).trans (List.Perm.cons x ih)

theorem mem_collectVideoFiles (cfg : Config) (processed : List String) (t : DirTree)
    (p : String) :
    p ∈ collectVideoFiles cfg processed t
      ↔ p ∈ walkCollect cfg processed cfg.SOURCE_ROOT t := by
  unfold collectVideoFiles
  split
  · rw [List.mem_reverse]
    exact (sortStrings_perm _).mem_iff
  · exact (sortStrings_perm _).mem_iff

mutual

/-- The walked tree with every subdirectory whose name is one of the six
outcome-directory names deleted — at every depth and every position, exactly
the subtrees that `dirs[:] = [d for d in dirs if d not in skip_dirs]` prunes
from the traversal. -/
def pruneTree (cfg : Config) : DirTree → DirTree
  | DirTree.node dirs files => DirTree.node (pruneDirs cfg dirs) files

def pruneDirs (cfg : Config) : DirList → DirList
  | DirList.nil => DirList.nil
  | DirList.cons d t rest =>
    if (skipDirs cfg).contains d then pruneDirs cfg rest
    else DirList.cons d (pruneTree cfg t) (pruneDirs cfg rest)

end

mutual

theorem walkCollect_pruneTree (cfg : Config) (processed : List String) (root : String) :
    ∀ t : DirTree,
      walkCollect cfg processed root (pruneTree cfg t) = walkCollect cfg processed root t
  | DirTree.node dirs files => by
    simp only [pruneTree, walkCollect]
    rw [walkCollectDirs_pruneDirs cfg processed root dirs]

theorem walkCollectDirs_pruneDirs (cfg : Config) (processed : List String) (root : String) :
    ∀ l : DirList,
      walkCollectDirs cfg processed root (pruneDirs cfg l)
        = walkCollectDirs cfg processed root l
  | DirList.nil => rfl
  | DirList.cons d t rest => by
    have h1 := walkCollectDirs_pruneDirs cfg processed root rest
    have hstepR : walkCollectDirs cfg processed root (DirList.cons d t rest)
        = (if (skipDirs cfg).contains d then []
            else walkCollect cfg processed (pjoin root d) t)
          ++ walkCollectDirs cfg processed root rest := by
      simp [walkCollectDirs]
    cases hsd : (skipDirs cfg).contains d with
    | true =>
      have hp : pruneDirs cfg (DirList.cons d t rest) = pruneDirs cfg rest := by
        simp only [pruneDirs]
        rw [hsd]
        simp
      rw [hp, h1, hstepR, hsd]
      simp
    | false =>
      have h2 := walkCollect_pruneTree cfg processed (pjoin root d) t
      have hp : pruneDirs cfg (DirList.cons d t rest)
          = DirList.cons d (pruneTree cfg t) (pruneDirs cfg rest) := by
        simp only [pruneDirs]
        rw [hsd]
        simp
      have hstepL : walkCollectDirs cfg processed root
            (DirList.cons d (pruneTree cfg t) (pruneDirs cfg rest))
          = (if (skipDirs cfg).contains d then []
              else walkCollect cfg processed (pjoin root d) (pruneTree cfg t))
            ++ walkCollectDirs cfg processed root (pruneDirs cfg rest) := by
        simp [walkCollectDirs]
      rw [hp, hstepL, hstepR, hsd, h1, h2]

end

/-- C7: discovery never enumerates any file lying inside a subdirectory —
at any depth and any position under the watch root — whose name equals one
of the outcome-directory names (`done`, `errored`, `in-progress`,
`optimized`, `optimized-bad`, `optimized-original`): the `dirs[:]` pruning
runs at every walk level, so `collect_video_files` produces the same output
on any tree as on the tree with every such subtree deleted; in particular a
video file placed inside a directory literally named `done` is never
returned. -/
theorem collect_video_files_prunes (cfg : Config) (processed : List String)
    (t : DirTree) :
    collectVideoFiles cfg processed t
      = collectVideoFiles cfg processed (pruneTree cfg t) := by
  unfold collectVideoFiles
  rw [walkCollect_pruneTree cfg processed cfg.SOURCE_ROOT t]

/-- Concrete instance of the pruning at depth 2: a file inside
`shows/done/` is invisible to discovery. -/
theorem prune_example_depth_two :
    collectVideoFiles defaultConfig []
      (DirTree.node
        (DirList.cons "shows"
          (DirTree.node
            (DirList.cons "done" (DirTree.node DirList.nil ["hidden.mkv"]) DirList.nil)
            ["ep.mp4"])
          DirList.nil)
        [])
    = collectVideoFiles defaultConfig []
        (DirTree.node
          (DirList.cons "shows" (DirTree.node DirList.nil ["ep.mp4"]) DirList.nil)
          []) := by
  decide

theorem contains_eq_true_of_mem (l : List String) (a : String) (h : a ∈ l) :
    l.contains a = true :=
  List.elem_eq_true_of_mem h

theorem contains_nil_str (a : String) : List.contains ([] : List String) a = false := rfl

theorem filterMap_congr_fun {α β : Type} (f g : α → Option β) (l : List α)
    (h : ∀ a, f a = g a) : l.filterMap f = l.filterMap g := by
  induction l with
  | nil => rfl
  | cons a t ih => simp only [List.filterMap_cons, h a, ih]

/-- A `filterMap` guarded by a conjunction splits into the unguarded
`filterMap` followed by a `filter`. -/
theorem filterMap_if_and {α β : Type} (g : α → β) (vid q : β → Bool) (l : List α) :
    l.filterMap (fun a => if vid (g a) && q (g a) then some (g a) else none)
      = (l.filterMap (fun a => if vid (g a) then some (g a) else none)).filter q := by
  induction l with
  | nil => rfl
  | cons a t ih =>
    have ih2 := ih
    simp only [Bool.and_eq_true] at ih2
    simp only [List.filterMap_cons]
    cases hv : vid (g a) with
    | false => simp [hv, ih2]
    | true =>
      cases hq : q (g a) with
      | false => simp [hv, hq, ih2]
      | true => simp [hv, hq, ih2]

mutual

/-- The `processed_files` parameter of `collect_video_files` acts as a pure
filter over the walk with no `processed_files`. -/
theorem walkCollect_filter (cfg : Config) (processed : List String) (root : String) :
    ∀ t : DirTree,
      walkCollect cfg processed root t
        = (walkCollect cfg [] root t).filter (fun p => !(processed.contains p))
  | DirTree.node dirs files => by
    have hdirs := walkCollectDirs_filter cfg processed root dirs
    have hempty : files.filterMap (fun f =>
        if isVideoFile cfg (pjoin root f)
            && !(List.contains ([] : List String) (pjoin root f)) then
          some (pjoin root f) else none)
      = files.filterMap (fun f =>
          if isVideoFile cfg (pjoin root f) then some (pjoin root f) else none) :=
      filterMap_congr_fun _ _ files (fun a => by simp [contains_nil_str])
    have hfiles : files.filterMap (fun f =>
        if isVideoFile cfg (pjoin root f) && !(processed.contains (pjoin root f)) then
          some (pjoin root f) else none)
      = (files.filterMap (fun f =>
          if isVideoFile cfg (pjoin root f)
              && !(List.contains ([] : List String) (pjoin root f)) then
            some (pjoin root f) else none)).filter (fun p => !(processed.contains p)) := by
      rw [hempty]
      exact filterMap_if_and (fun f => pjoin root f) (isVideoFile cfg)
        (fun p => !(processed.contains p)) files
    simp only [walkCollect]
    rw [List.filter_append, hfiles, hdirs]

theorem walkCollectDirs_filter (cfg : Config) (processed : List String) (root : String) :
    ∀ l : DirList,
      walkCollectDirs cfg processed root l
        = (walkCollectDirs cfg [] root l).filter (fun p => !(processed.contains p))
  | DirList.nil => by simp [walkCollectDirs]
  | DirList.cons d t rest => by
    have ht := walkCollect_filter cfg processed (pjoin root d) t
    have hrest := walkCollectDirs_filter cfg processed root rest
    simp only [walkCollectDirs]
    rw [List.filter_append, hrest]
    cases hsd : (skipDirs cfg).contains d with
    | true => simp [hsd]
    | false => simp [hsd, ht]

end

theorem collectVideoFiles_eq_nil (cfg : Config) (processed : List String) (t : DirTree)
    (h : walkCollect cfg processed cfg.SOURCE_ROOT t = []) :
    collectVideoFiles cfg processed t = [] := by
  unfold collectVideoFiles
  rw [h]
  split <;> rfl

/-- C8: the first conjunct says one discovery pass with an empty
`ProcessedSet` enumerates exactly the video files of the walk (as a
permutation, i.e. exactly those N paths); the second that a second pass with
all of them in `ProcessedSet` enumerates nothing; the third that any path in
`ProcessedSet` is never returned by discovery again. -/
theorem rescan_idempotent (cfg : Config) (t : DirTree) (processed : List String)
    (p : String) :
    (collectVideoFiles cfg [] t).Perm (walkCollect cfg [] cfg.SOURCE_ROOT t)
      ∧ collectVideoFiles cfg (collectVideoFiles cfg [] t) t = []
      ∧ (p ∈ processed → p ∉ collectVideoFiles cfg processed t) := by
  refine ⟨?_, ?_, ?_⟩
  · unfold collectVideoFiles
    split
    · exact (List.reverse_perm _).trans (sortStrings_perm _)
    · exact sortStrings_perm _
  · have hwalk : walkCollect cfg (collectVideoFiles cfg [] t) cfg.SOURCE_ROOT t = [] := by
      rw [walkCollect_filter]
      apply List.filter_eq_nil_iff.mpr
      intro a ha
      have hmem : a ∈ collectVideoFiles cfg [] t := (mem_collectVideoFiles cfg [] t a).mpr ha
      simp [contains_eq_true_of_mem _ _ hmem, hmem]
    exact collectVideoFiles_eq_nil cfg _ t hwalk
  · intro hp hmem
    have hw := (mem_collectVideoFiles cfg processed t p).mp hmem
    rw [walkCollect_filter] at hw
    have hkeep := (List.mem_filter.mp hw).2
    simp [contains_eq_true_of_mem _ _ hp] at hkeep
    exact hkeep hp

/-- A concrete two-file watch root for the C8 witness. -/
def treeW : DirTree := DirTree.node DirList.nil ["a.mp4", "b.mkv"]

/-- Witness for C8 at a concrete tree and processed set. -/
theorem rescan_idempotent_witness :
    collectVideoFiles defaultConfig (collectVideoFiles defaultConfig [] treeW) treeW = []
      ∧ "./to-convert/a.mp4" ∉ collectVideoFiles defaultConfig ["./to-convert/a.mp4"] treeW :=
  ⟨(rescan_idempotent defaultConfig treeW ["./to-convert/a.mp4"] "./to-convert/a.mp4").2.1,
   (rescan_idempotent defaultConfig treeW ["./to-convert/a.mp4"] "./to-convert/a.mp4").2.2
     (by decide)⟩

/-! ## The queue-based discovery loop of `main.py` (C9)

State of `main()`: `file_queue` (deque), `queued_files` (set, kept as a
list), `processed_files` (set), plus two ghost traces: `invoked` (the calls
to `process_file_from_queue`, in order) and `enqueued` (every path ever
appended to the queue).  One `mainStep` is one iteration of the loop: with
an empty queue, a discovery scan refills it (lines 91-106; sleeping when
nothing is found leaves the state unchanged, which the same equations
cover); with a nonempty queue, the head is popped and processed — by C10 it
lands in `processed_files` — and a rescan appends the newly discovered files
filtered against both `queued_files` and `processed_files` (lines 109-142).
The filesystem contents seen by each scan are an oracle: the list `scans`
supplies the `DirTree` walked at each iteration. -/

structure LoopState where
  queue : List String
  queuedSet : List String
  processed : List String
  invoked : List String
  enqueued : List String

def initState : LoopState := ⟨[], [], [], [], []⟩

def emptyTree : DirTree := DirTree.node DirList.nil []

/-- Lines 91-106: discover against `processed_files`, extend the queue and
`queued_files`. -/
def refillStep (cfg : Config) (s : LoopState) (scan : DirTree) : LoopState :=
  ⟨collectVideoFiles cfg s.processed scan,
   s.queuedSet ++ collectVideoFiles cfg s.processed scan,
   s.processed, s.invoked,
   s.enqueued ++ collectVideoFiles cfg s.processed scan⟩

/-- Line 136: `[f for f in all_discovered if f not in queued_files and
f not in processed_files]`, evaluated after the pop updated both sets. -/
def popNew (cfg : Config) (s : LoopState) (current : String) (scan : DirTree) :
    List String :=
  (collectVideoFiles cfg (current :: s.processed) scan).filter
    (fun f => !((s.queuedSet.erase current).contains f)
      && !((current :: s.processed).contains f))

/-- Lines 109-142: pop the head, discard it from `queued_files`, process it
(adding it to `processed_files` and the invocation trace), rescan and append
the deduplicated new files. -/
def popStep (cfg : Config) (s : LoopState) (current : String) (rest : List String)
    (scan : DirTree) : LoopState :=
  ⟨rest ++ popNew cfg s current scan,
   s.queuedSet.erase current ++ popNew cfg s current scan,
   current :: s.processed,
   s.invoked ++ [current],
   s.enqueued ++ popNew cfg s current scan⟩

def mainStep (cfg : Config) (s : LoopState) (scan : DirTree) : LoopState :=
  match s.queue with
  | [] => refillStep cfg s scan
  | current :: rest => popStep cfg s current rest scan

def mainRun (cfg : Config) : LoopState → List DirTree → LoopState
  | s, [] => s
  | s, scan :: scans => mainRun cfg (mainStep cfg s scan) scans

/-- Running the loop after the oracle scans stop producing new files, until
the queue drains. -/
def drainAux (cfg : Config) : Nat → LoopState → LoopState
  | 0, s => s
  | Nat.succ n, s => drainAux cfg n (mainStep cfg s emptyTree)

def drain (cfg : Config) (s : LoopState) : LoopState :=
  drainAux cfg s.queue.length s

/-! ### Supporting facts -/

theorem not_mem_of_not_contains (l : List String) (x : String)
    (h : (!(l.contains x)) = true) : x ∉ l := by
  intro hm
  rw [contains_eq_true_of_mem _ _ hm] at h
  simp at h

theorem not_contains_of_not_mem (l : List String) (x : String) (h : x ∉ l) :
    (!(l.contains x)) = true := by
  cases hc : l.contains x
  · rfl
  · exact absurd (List.mem_of_elem_eq_true hc) h

theorem mem_collect_iff (cfg : Config) (P : List String) (t : DirTree) (p : String) :
    p ∈ collectVideoFiles cfg P t
      ↔ (p ∈ walkCollect cfg [] cfg.SOURCE_ROOT t ∧ p ∉ P) := by
  rw [mem_collectVideoFiles, walkCollect_filter, List.mem_filter]
  constructor
  · rintro ⟨h1, h2⟩
    exact ⟨h1, not_mem_of_not_contains P p h2⟩
  · rintro ⟨h1, h2⟩
    exact ⟨h1, not_contains_of_not_mem P p h2⟩

theorem nodup_collectVideoFiles (cfg : Config) (P : List String) (t : DirTree)
    (h : (walkCollect cfg [] cfg.SOURCE_ROOT t).Nodup) :
    (collectVideoFiles cfg P t).Nodup := by
  have hw : (walkCollect cfg P cfg.SOURCE_ROOT t).Nodup := by
    rw [walkCollect_filter]
    exact List.Nodup.filter _ h
  unfold collectVideoFiles
  split
  · exact List.nodup_reverse.mpr ((sortStrings_perm _).symm.nodup hw)
  · exact (sortStrings_perm _).symm.nodup hw

theorem walk_emptyTree (cfg : Config) (P : List String) (root : String) :
    walkCollect cfg P root emptyTree = [] := by
  simp [emptyTree, walkCollect, walkCollectDirs]

theorem collect_emptyTree (cfg : Config) (P : List String) :
    collectVideoFiles cfg P emptyTree = [] :=
  collectVideoFiles_eq_nil cfg P emptyTree (walk_emptyTree cfg P cfg.SOURCE_ROOT)

theorem mem_popNew (cfg : Config) (s : LoopState) (current : String) (scan : DirTree)
    (x : String) :
    x ∈ popNew cfg s current scan
      ↔ (x ∈ walkCollect cfg [] cfg.SOURCE_ROOT scan
          ∧ x ∉ s.queuedSet.erase current ∧ x ∉ current :: s.processed) := by
  unfold popNew
  rw [List.mem_filter, mem_collect_iff]
  constructor
  · rintro ⟨⟨hw, hp⟩, hb⟩
    have hb2 : (!((s.queuedSet.erase current).contains x)) = true
        ∧ (!((current :: s.processed).contains x)) = true := by
      simpa [Bool.and_eq_true] using hb
    exact ⟨hw, not_mem_of_not_contains _ _ hb2.1, hp⟩
  · rintro ⟨hw, hq, hp⟩
    refine ⟨⟨hw, hp⟩, ?_⟩
    have h1 := not_contains_of_not_mem _ _ hq
    have h2 := not_contains_of_not_mem _ _ hp
    rw [List.mem_cons, not_or] at hp
    simp [Bool.and_eq_true, h1, h2, hq, hp.1, hp.2]

theorem nodup_popNew (cfg : Config) (s : LoopState) (current : String) (scan : DirTree)
    (h : (walkCollect cfg [] cfg.SOURCE_ROOT scan).Nodup) :
    (popNew cfg s current scan).Nodup :=
  List.Nodup.filter _ (nodup_collectVideoFiles cfg _ scan h)

/-- The loop invariant of `main()`: the queue has no duplicates and only
unprocessed paths, `queued_files` mirrors the queue, the invocation trace
has no duplicates and matches `processed_files`, and every path ever
enqueued is enqueued once and is either still queued or processed. -/
structure LoopInv (s : LoopState) : Prop where
  nodupQueue : s.queue.Nodup
  queueFresh : ∀ q, q ∈ s.queue → q ∉ s.processed
  queuedIff : ∀ q, q ∈ s.queuedSet ↔ q ∈ s.queue
  nodupQueued : s.queuedSet.Nodup
  nodupInvoked : s.invoked.Nodup
  procIff : ∀ q, q ∈ s.processed ↔ q ∈ s.invoked
  nodupEnqueued : s.enqueued.Nodup
  enqIff : ∀ q, q ∈ s.enqueued ↔ (q ∈ s.queue ∨ q ∈ s.processed)

theorem loopInv_refill (cfg : Config) (s : LoopState) (scan : DirTree)
    (hs : LoopInv s) (hq : s.queue = [])
    (hnd : (walkCollect cfg [] cfg.SOURCE_ROOT scan).Nodup) :
    LoopInv (refillStep cfg s scan) := by
  have hqs : ∀ q, q ∉ s.queuedSet := fun q hmem => by
    have := (hs.queuedIff q).mp hmem
    rw [hq] at this
    simp at this
  have hNfresh : ∀ q, q ∈ collectVideoFiles cfg s.processed scan → q ∉ s.processed :=
    fun q hmem => ((mem_collect_iff cfg _ scan q).mp hmem).2
  refine ⟨?_, ?_, ?_, ?_, hs.nodupInvoked, hs.procIff, ?_, ?_⟩
  · exact nodup_collectVideoFiles cfg _ scan hnd
  · exact hNfresh
  · intro q
    simp only [refillStep, List.mem_append]
    constructor
    · rintro (hmem | hmem)
      · exact absurd hmem (hqs q)
      · exact hmem
    · exact fun hmem => Or.inr hmem
  · simp only [refillStep]
    rw [List.nodup_append]
    exact ⟨hs.nodupQueued, nodup_collectVideoFiles cfg _ scan hnd,
      fun a ha => absurd ha (hqs a)⟩
  · simp only [refillStep]
    rw [List.nodup_append]
    refine ⟨hs.nodupEnqueued, nodup_collectVideoFiles cfg _ scan hnd, ?_⟩
    intro a ha hmem
    rcases (hs.enqIff a).mp ha with h | h
    · rw [hq] at h
      simp at h
    · exact hNfresh a hmem h
  · intro q
    simp only [refillStep, List.mem_append]
    rw [hs.enqIff q, hq]
    simp only [List.not_mem_nil, false_or]
    constructor
    · rintro (h | h)
      · exact Or.inr h
      · exact Or.inl h
    · rintro (h | h)
      · exact Or.inr h
      · exact Or.inl h

theorem loopInv_pop (cfg : Config) (s : LoopState) (current : String)
    (rest : List String) (scan : DirTree) (hs : LoopInv s)
    (hq : s.queue = current :: rest)
    (hnd : (walkCollect cfg [] cfg.SOURCE_ROOT scan).Nodup) :
    LoopInv (popStep cfg s current rest scan) := by
  have hndq : (current :: rest).Nodup := hq ▸ hs.nodupQueue
  have hcr : current ∉ rest := (List.nodup_cons.mp hndq).1
  have hndr : rest.Nodup := (List.nodup_cons.mp hndq).2
  have hcurq : current ∈ s.queue := by rw [hq]; exact List.mem_cons_self _ _
  have hcurp : current ∉ s.processed := hs.queueFresh current hcurq
  have hrestQ1 : ∀ x, x ∈ rest → x ∈ s.queuedSet.erase current := by
    intro x hx
    have hxq : x ∈ s.queuedSet := (hs.queuedIff x).mpr (by rw [hq]; exact List.mem_cons_of_mem _ hx)
    have hxc : x ≠ current := fun he => hcr (he ▸ hx)
    exact (hs.nodupQueued.mem_erase_iff).mpr ⟨hxc, hxq⟩
  have hQ1rest : ∀ x, x ∈ s.queuedSet.erase current → x ∈ rest := by
    intro x hx
    obtain ⟨hxc, hxq⟩ := (hs.nodupQueued.mem_erase_iff).mp hx
    have := (hs.queuedIff x).mp hxq
    rw [hq] at this
    rcases List.mem_cons.mp this with h | h
    · exact absurd h hxc
    · exact h
  have hNspec : ∀ x, x ∈ popNew cfg s current scan →
      x ∉ s.queuedSet.erase current ∧ x ≠ current ∧ x ∉ s.processed := by
    intro x hx
    obtain ⟨_, hq1, hp1⟩ := (mem_popNew cfg s current scan x).mp hx
    rw [List.mem_cons, not_or] at hp1
    exact ⟨hq1, hp1.1, hp1.2⟩
  have hNnd : (popNew cfg s current scan).Nodup := nodup_popNew cfg s current scan hnd
  refine ⟨?_, ?_, ?_, ?_, ?_, ?_, ?_, ?_⟩
  · simp only [popStep]
    rw [List.nodup_append]
    exact ⟨hndr, hNnd, fun a ha hmem => (hNspec a hmem).1 (hrestQ1 a ha)⟩
  · intro x hx
    simp only [popStep] at hx ⊢
    rw [List.mem_cons, not_or]
    simp only [List.mem_append] at hx
    rcases hx with h | h
    · exact ⟨fun he => hcr (he ▸ h), hs.queueFresh x (by rw [hq]; exact List.mem_cons_of_mem _ h)⟩
    · exact ⟨(hNspec x h).2.1, (hNspec x h).2.2⟩
  · intro x
    simp only [popStep, List.mem_append]
    constructor
    · rintro (h | h)
      · exact Or.inl (hQ1rest x h)
      · exact Or.inr h
    · rintro (h | h)
      · exact Or.inl (hrestQ1 x h)
      · exact Or.inr h
  · simp only [popStep]
    rw [List.nodup_append]
    exact ⟨hs.nodupQueued.erase current, hNnd, fun a ha hmem => (hNspec a hmem).1 ha⟩
  · simp only [popStep]
    rw [List.nodup_append]
    refine ⟨hs.nodupInvoked, List.nodup_singleton current, ?_⟩
    intro a ha hmem
    rw [List.mem_singleton] at hmem
    subst hmem
    exact hcurp ((hs.procIff a).mpr ha)
  · intro x
    simp only [popStep, List.mem_cons, List.mem_append, List.mem_singleton,
      List.not_mem_nil, or_false]
    rw [hs.procIff x]
    tauto
  · simp only [popStep]
    rw [List.nodup_append]
    refine ⟨hs.nodupEnqueued, hNnd, ?_⟩
    intro a ha hmem
    obtain ⟨hq1, hnc, hnp⟩ := hNspec a hmem
    rcases (hs.enqIff a).mp ha with h | h
    · rw [hq] at h
      rcases List.mem_cons.mp h with h2 | h2
      · exact hnc h2
      · exact hq1 (hrestQ1 a h2)
    · exact hnp h
  · intro x
    simp only [popStep, List.mem_append, List.mem_cons]
    rw [hs.enqIff x, hq]
    simp only [List.mem_cons]
    tauto

theorem mainStep_eq_refill (cfg : Config) (s : LoopState) (scan : DirTree)
    (hq : s.queue = []) : mainStep cfg s scan = refillStep cfg s scan := by
  unfold mainStep
  rw [hq]

theorem mainStep_eq_pop (cfg : Config) (s : LoopState) (scan : DirTree)
    (current : String) (rest : List String) (hq : s.queue = current :: rest) :
    mainStep cfg s scan = popStep cfg s current rest scan := by
  unfold mainStep
  rw [hq]

theorem loopInv_step (cfg : Config) (s : LoopState) (scan : DirTree) (hs : LoopInv s)
    (hnd : (walkCollect cfg [] cfg.SOURCE_ROOT scan).Nodup) :
    LoopInv (mainStep cfg s scan) := by
  cases hq : s.queue with
  | nil =>
    rw [mainStep_eq_refill cfg s scan hq]
    exact loopInv_refill cfg s scan hs hq hnd
  | cons current rest =>
    rw [mainStep_eq_pop cfg s scan current rest hq]
    exact loopInv_pop cfg s current rest scan hs hq hnd

/-- A path already processed or queued stays processed-or-queued. -/
def Reached (x : String) (s : LoopState) : Prop :=
  x ∈ s.processed ∨ x ∈ s.queue

theorem reached_mono_step (cfg : Config) (s : LoopState) (scan : DirTree) (x : String)
    (hr : Reached x s) : Reached x (mainStep cfg s scan) := by
  cases hq : s.queue with
  | nil =>
    rw [mainStep_eq_refill cfg s scan hq]
    rcases hr with h | h
    · exact Or.inl h
    · rw [hq] at h
      simp at h
  | cons current rest =>
    rw [mainStep_eq_pop cfg s scan current rest hq]
    rcases hr with h | h
    · exact Or.inl (List.mem_cons_of_mem _ h)
    · rw [hq] at h
      rcases List.mem_cons.mp h with h2 | h2
      · exact Or.inl (by rw [h2]; exact List.mem_cons_self _ _)
      · exact Or.inr (by simp only [popStep, List.mem_append]; exact Or.inl h2)

/-- A path visible to the scan consumed by a step is processed or queued
afterwards: this is the enqueue-time deduplication plus the initial-batch
fill. -/
theorem observed_step (cfg : Config) (s : LoopState) (scan : DirTree) (x : String)
    (hs : LoopInv s) (hx : x ∈ walkCollect cfg [] cfg.SOURCE_ROOT scan) :
    Reached x (mainStep cfg s scan) := by
  cases hq : s.queue with
  | nil =>
    rw [mainStep_eq_refill cfg s scan hq]
    by_cases hp : x ∈ s.processed
    · exact Or.inl hp
    · refine Or.inr ?_
      simp only [refillStep]
      exact (mem_collect_iff cfg _ scan x).mpr ⟨hx, hp⟩
  | cons current rest =>
    rw [mainStep_eq_pop cfg s scan current rest hq]
    by_cases hp : x ∈ current :: s.processed
    · rcases List.mem_cons.mp hp with h | h
      · exact Or.inl (by rw [h]; exact List.mem_cons_self _ _)
      · exact Or.inl (List.mem_cons_of_mem _ h)
    · by_cases hq1 : x ∈ s.queuedSet.erase current
      · refine Or.inr ?_
        simp only [popStep, List.mem_append]
        refine Or.inl ?_
        obtain ⟨hxc, hxq⟩ := (hs.nodupQueued.mem_erase_iff).mp hq1
        have hxq2 := (hs.queuedIff x).mp hxq
        rw [hq] at hxq2
        rcases List.mem_cons.mp hxq2 with h | h
        · exact absurd h hxc
        · exact h
      · refine Or.inr ?_
        simp only [popStep, List.mem_append]
        exact Or.inr ((mem_popNew cfg s current scan x).mpr ⟨hx, hq1, hp⟩)

theorem loopInv_run (cfg : Config) (scans : List DirTree) (s : LoopState)
    (hs : LoopInv s)
    (hnd : ∀ t ∈ scans, (walkCollect cfg [] cfg.SOURCE_ROOT t).Nodup) :
    LoopInv (mainRun cfg s scans) := by
  induction scans generalizing s with
  | nil => exact hs
  | cons scan scans ih =>
    exact ih (mainStep cfg s scan)
      (loopInv_step cfg s scan hs (hnd scan (List.mem_cons_self _ _)))
      (fun t ht => hnd t (List.mem_cons_of_mem _ ht))

theorem reached_run (cfg : Config) (scans : List DirTree) (s : LoopState) (x : String)
    (hs : LoopInv s)
    (hnd : ∀ t ∈ scans, (walkCollect cfg [] cfg.SOURCE_ROOT t).Nodup)
    (hx : (∃ t ∈ scans, x ∈ walkCollect cfg [] cfg.SOURCE_ROOT t) ∨ Reached x s) :
    Reached x (mainRun cfg s scans) := by
  induction scans generalizing s with
  | nil =>
    rcases hx with ⟨t, ht, _⟩ | hr
    · simp at ht
    · exact hr
  | cons scan scans ih =>
    refine ih (mainStep cfg s scan)
      (loopInv_step cfg s scan hs (hnd scan (List.mem_cons_self _ _)))
      (fun t ht => hnd t (List.mem_cons_of_mem _ ht)) ?_
    rcases hx with ⟨t, ht, hxt⟩ | hr
    · rcases List.mem_cons.mp ht with he | he
      · exact Or.inr (observed_step cfg s scan x hs (he ▸ hxt))
      · exact Or.inl ⟨t, he, hxt⟩
    · exact Or.inr (reached_mono_step cfg s scan x hr)

theorem drainAux_spec (cfg : Config) (n : Nat) :
    ∀ s : LoopState, LoopInv s → s.queue.length ≤ n →
      LoopInv (drainAux cfg n s)
        ∧ (drainAux cfg n s).queue = []
        ∧ (∀ x, Reached x s → x ∈ (drainAux cfg n s).processed) := by
  induction n with
  | zero =>
    intro s hs hlen
    have hq : s.queue = [] := List.eq_nil_of_length_eq_zero (Nat.le_zero.mp hlen)
    refine ⟨hs, hq, ?_⟩
    intro x hr
    rcases hr with h | h
    · exact h
    · rw [hq] at h
      simp at h
  | succ n ih =>
    intro s hs hlen
    have hndE : (walkCollect cfg [] cfg.SOURCE_ROOT emptyTree).Nodup := by
      rw [walk_emptyTree]
      exact List.nodup_nil
    have hstepInv := loopInv_step cfg s emptyTree hs hndE
    have hsteplen : (mainStep cfg s emptyTree).queue.length ≤ n := by
      cases hq : s.queue with
      | nil =>
        rw [mainStep_eq_refill cfg s emptyTree hq]
        simp [refillStep, collect_emptyTree]
      | cons current rest =>
        rw [mainStep_eq_pop cfg s emptyTree current rest hq]
        have hN : popNew cfg s current emptyTree = [] := by
          unfold popNew
          rw [collect_emptyTree]
          rfl
        simp only [popStep, hN, List.append_nil]
        have := hlen
        rw [hq] at this
        simpa using Nat.lt_succ_iff.mp (Nat.lt_of_lt_of_le (by simp) this)
    obtain ⟨hI, hQ, hP⟩ := ih (mainStep cfg s emptyTree) hstepInv hsteplen
    refine ⟨hI, hQ, ?_⟩
    intro x hr
    exact hP x (reached_mono_step cfg s emptyTree x hr)

theorem count_le_one_of_nodup (l : List String) (h : l.Nodup) (x : String) :
    l.count x ≤ 1 := by
  induction l with
  | nil => simp
  | cons a t ih =>
    obtain ⟨ha, ht⟩ := List.nodup_cons.mp h
    rw [List.count_cons]
    by_cases hx : x = a
    · subst hx
      rw [List.count_eq_zero.mpr ha]
      simp
    · have hbe : (a == x) = false := by
        rw [beq_eq_false_iff_ne]
        exact fun h => hx h.symm
      rw [hbe]
      simpa using ih ht

/-- C9: for any sequence of discovery scans (each one duplicate-free, as a
filesystem walk is), a path observed by at least one scan — in particular by
two overlapping scans before it is processed — is enqueued at most once and
the pipeline (`process_file_from_queue`) is invoked for it exactly once by
the time the queue drains: enqueue-time filtering against both
`queued_files` and `processed_files` deduplicates. -/
theorem no_double_enqueue (cfg : Config) (scans : List DirTree) (p : String)
    (hnd : ∀ t ∈ scans, (walkCollect cfg [] cfg.SOURCE_ROOT t).Nodup)
    (hobs : ∃ t ∈ scans, p ∈ walkCollect cfg [] cfg.SOURCE_ROOT t) :
    ((drain cfg (mainRun cfg initState scans)).invoked).count p = 1
      ∧ ((drain cfg (mainRun cfg initState scans)).enqueued).count p ≤ 1 := by
  have hinv0 : LoopInv initState := by
    refine ⟨List.nodup_nil, ?_, ?_, List.nodup_nil, List.nodup_nil, ?_, List.nodup_nil, ?_⟩
    · intro q hq
      simp [initState] at hq
    · intro q
      exact Iff.rfl
    · intro q
      exact Iff.rfl
    · intro q
      simp [initState]
  have hrun := loopInv_run cfg scans initState hinv0 hnd
  have hreach := reached_run cfg scans initState p hinv0 hnd (Or.inl hobs)
  obtain ⟨hI, _, hP⟩ := drainAux_spec cfg (mainRun cfg initState scans).queue.length
    (mainRun cfg initState scans) hrun (Nat.le_refl _)
  have hpin : p ∈ (drain cfg (mainRun cfg initState scans)).processed := hP p hreach
  have hinvk : p ∈ (drain cfg (mainRun cfg initState scans)).invoked :=
    (hI.procIff p).mp hpin
  constructor
  · exact Nat.le_antisymm
      (count_le_one_of_nodup _ hI.nodupInvoked p)
      (List.count_pos_iff.mpr hinvk)
  · exact count_le_one_of_nodup _ hI.nodupEnqueued p

/-- Witness for C9: two overlapping scans both observe `clip.mkv`; it is
still invoked exactly once. -/
theorem no_double_enqueue_witness :
    ((drain defaultConfig (mainRun defaultConfig initState [treeW, treeW])).invoked).count
        "./to-convert/a.mp4" = 1
      ∧ ((drain defaultConfig (mainRun defaultConfig initState [treeW, treeW])).enqueued).count
          "./to-convert/a.mp4" ≤ 1 :=
  no_double_enqueue defaultConfig [treeW, treeW] "./to-convert/a.mp4"
    (by decide) (by decide)
